import Mathlib

/-!
Verification of the buttercup transcription server's chunking/merging core
(`src/buttercup-server/server.py`).

The embedding models the pure core of the server:

* the chunk planner (the size check and the `mb_per_second` /
  `chunk_duration` / `num_chunks` computation shared by `upload_transcribe`
  and `transcribe_video`, lines 251-263 and 629-655),
* the chunk-offset loop (`start_time = i * chunk_duration`, lines 269-271
  and 661-663),
* `convert_groq_to_youtube_format` (lines 426-453), and
* `merge_transcripts` (lines 456-486).

Python numerics are modelled with exact rationals (`ℚ`).  Python's `int()`
conversion truncates toward zero and is modelled by `pyInt`.  Python raises
`ZeroDivisionError` on division by zero (rational division in Lean is total
and returns 0), so the planner's divisions carry explicit zero guards that
return the error the interpreter would raise.
-/

/-- A transcript segment as returned by the Groq API: the `start`, `end` and
`text` fields read by `merge_transcripts` and `convert_groq_to_youtube_format`. -/
structure Segment where
  start : ℚ
  «end» : ℚ
  text : String
deriving DecidableEq, Repr

/-- A Groq API transcription result as consumed by the conversion/merge code:
it may carry a `segments` array (verbose format) and/or a `text` field.
`segments = none` models the `'segments'` key being absent. -/
structure GroqResult where
  segments : Option (List Segment)
  text : Option String
deriving DecidableEq, Repr

/-- One entry of the list handed to `merge_transcripts`: a dict
`{'result': ..., 'startTime': ...}` built by the chunk loop. -/
structure TimedTranscriptFragment where
  result : GroqResult
  startTime : ℚ
deriving DecidableEq, Repr

/-- One output caption event `{'tStartMs': ..., 'dDurationMs': ..., 'segs': [...]}`.
`segs` holds the `utf8` payloads of the `segs` list (the code always emits a
one-element list). -/
structure CaptionEvent where
  tStartMs : ℤ
  dDurationMs : ℤ
  segs : List String
deriving DecidableEq, Repr

/-- The value returned by the merge/conversion functions: `{'events': events}`. -/
structure Transcript where
  events : List CaptionEvent
deriving DecidableEq, Repr

/-- The chunk plan computed in the chunking branch: the request's duration
together with the derived `chunk_duration` and `num_chunks` locals. -/
structure ChunkPlan where
  totalDurationSeconds : ℚ
  chunkDurationSeconds : ℤ
  chunkCount : ℤ
deriving DecidableEq, Repr

/-- The runtime error the Python interpreter raises when the planner divides
by zero (there is no explicit guard in the source). -/
inductive PyRuntimeError where
  | zeroDivisionError
deriving DecidableEq, Repr

/-- Python's `int()` applied to a number: truncation toward zero. -/
def pyInt (q : ℚ) : ℤ := if 0 ≤ q then ⌊q⌋ else ⌈q⌉

/-- The chunk planner, lines 251-263 / 629-655 of `server.py`:

```
if audio_size_mb < MAX_FILE_SIZE_MB:
    ... single file ...           -- modelled as `.ok none`
else:
    mb_per_second = audio_size_mb / duration
    chunk_duration = math.floor(MAX_FILE_SIZE_MB / mb_per_second)
    num_chunks = math.ceil(duration / chunk_duration)
```

Sizes are in megabytes as in the source.  Each division is guarded by the
zero test the Python interpreter performs implicitly: a zero divisor raises
`ZeroDivisionError` (duration 0, size 0, or a `chunk_duration` that floors
to 0). -/
def plan (totalDurationSeconds totalSizeMB maxSizeMB : ℚ) :
    Except PyRuntimeError (Option ChunkPlan) :=
  if totalSizeMB < maxSizeMB then
    .ok none
  else if totalDurationSeconds = 0 then
    .error PyRuntimeError.zeroDivisionError
  else if totalSizeMB / totalDurationSeconds = 0 then
    .error PyRuntimeError.zeroDivisionError
  else if ⌊maxSizeMB / (totalSizeMB / totalDurationSeconds)⌋ = 0 then
    .error PyRuntimeError.zeroDivisionError
  else
    .ok (some
      { totalDurationSeconds := totalDurationSeconds
        chunkDurationSeconds := ⌊maxSizeMB / (totalSizeMB / totalDurationSeconds)⌋
        chunkCount :=
          ⌈totalDurationSeconds /
            ((⌊maxSizeMB / (totalSizeMB / totalDurationSeconds)⌋ : ℤ) : ℚ)⌉ })

/-- The start offsets produced by the chunk loop
(`for i in range(num_chunks): start_time = i * chunk_duration`,
lines 269-271 / 661-663). -/
def chunkStartOffsets (p : ChunkPlan) : List ℤ :=
  (List.range p.chunkCount.toNat).map (fun i => (i : ℤ) * p.chunkDurationSeconds)

/-- The body of the `for item in transcripts` loop of `merge_transcripts`
(lines 467-484): the events appended for one fragment.  The `'segments' in
result` test is modelled by `segments` being `some`; the `elif 'text' in
result` fallback by `text` being `some`. -/
def fragmentEvents (item : TimedTranscriptFragment) : List CaptionEvent :=
  match item.result.segments with
  | some segs =>
      segs.map (fun segment =>
        { tStartMs := pyInt ((segment.start + item.startTime) * 1000)
          dDurationMs := pyInt ((segment.«end» - segment.start) * 1000)
          segs := [segment.text] })
  | none =>
      match item.result.text with
      | some t =>
          [{ tStartMs := pyInt (item.startTime * 1000)
             dDurationMs := 5000
             segs := [t] }]
      | none => []

/-- `merge_transcripts` (lines 456-486): concatenate the per-fragment events
in input order. -/
def merge_transcripts (transcripts : List TimedTranscriptFragment) : Transcript :=
  { events := transcripts.flatMap fragmentEvents }

/-- `convert_groq_to_youtube_format` (lines 426-453).  The Python condition
`if 'segments' in groq_result and groq_result['segments']` requires the
segments list to be present AND non-empty (a present-but-empty list falls
through to the `elif 'text'` branch). -/
def convert_groq_to_youtube_format (groq_result : GroqResult) : Transcript :=
  match groq_result.segments with
  | some segs =>
      if segs = [] then
        match groq_result.text with
        | some t => { events := [{ tStartMs := 0, dDurationMs := 5000, segs := [t] }] }
        | none => { events := [] }
      else
        { events :=
            segs.map (fun segment =>
              { tStartMs := pyInt (segment.start * 1000)
                dDurationMs := pyInt ((segment.«end» - segment.start) * 1000)
                segs := [segment.text] }) }
  | none =>
      match groq_result.text with
      | some t => { events := [{ tStartMs := 0, dDurationMs := 5000, segs := [t] }] }
      | none => { events := [] }

/-- Inversion of a successful chunking plan: the guards that were passed and
the value of the produced plan. -/
theorem plan_ok_some {d s m : ℚ} {p : ChunkPlan} (h : plan d s m = .ok (some p)) :
    ¬ s < m ∧ d ≠ 0 ∧ s / d ≠ 0 ∧ ⌊m / (s / d)⌋ ≠ 0 ∧
      p = { totalDurationSeconds := d
            chunkDurationSeconds := ⌊m / (s / d)⌋
            chunkCount := ⌈d / ((⌊m / (s / d)⌋ : ℤ) : ℚ)⌉ } := by
  unfold plan at h
  split_ifs at h with h1 h2 h3 h4
  · exact absurd (Except.ok.inj h) (by simp)
  · exact ⟨h1, h2, h3, h4, (Option.some.inj (Except.ok.inj h)).symm⟩

/-- C1: on a planning input whose computed `chunk_duration` floors to 0
(25 MB, 1 second, 24 MB threshold), the code does NOT fail with an
`InvalidPlanError`: `num_chunks = math.ceil(duration / chunk_duration)`
divides by zero and the request dies with an uncaught `ZeroDivisionError`. -/
theorem plan_zero_chunk_duration_divides_by_zero :
    plan 1 25 24 = .error PyRuntimeError.zeroDivisionError := by
  unfold plan
  norm_num

/-- C5: whenever the converted audio is strictly smaller than the threshold,
the planner returns no plan and the single-file path is taken. -/
theorem plan_below_threshold_no_chunking (d s m : ℚ) (h : s < m) :
    plan d s m = .ok none := by
  unfold plan
  rw [if_pos h]

/-- Witness for C5 at a 10 MB file with a 24 MB threshold. -/
theorem plan_below_threshold_no_chunking_witness : plan 600 10 24 = .ok none :=
  plan_below_threshold_no_chunking 600 10 24 (by norm_num)

/-- The planner's value on the 50 MB / 600 s / 24 MB scenario, shared by the
numeric claims below. -/
theorem plan_600_50_24 :
    plan 600 50 24 =
      .ok (some { totalDurationSeconds := 600
                  chunkDurationSeconds := 288
                  chunkCount := 3 }) := by
  unfold plan
  norm_num
  rw [Int.ceil_eq_iff]
  norm_num

/-- C9: the end-to-end numeric scenario.  A 50 MB, 600 second asset with a
24 MB threshold plans `chunk_duration = floor(24 / (50/600)) = 288`,
`num_chunks = ceil(600/288) = 3`, and the chunk loop starts its three
extractions at offsets 0, 288 and 576 seconds. -/
theorem plan_fifty_mb_scenario :
    plan 600 50 24 =
      .ok (some { totalDurationSeconds := 600
                  chunkDurationSeconds := 288
                  chunkCount := 3 }) ∧
    chunkStartOffsets
        { totalDurationSeconds := 600, chunkDurationSeconds := 288, chunkCount := 3 } =
      [0, 288, 576] :=
  ⟨plan_600_50_24, rfl⟩

/-- C4: whenever the planner actually produces a plan (positive duration,
non-negative threshold), the plan satisfies
`chunkCount = ceil(totalDurationSeconds / chunkDurationSeconds)` and
`chunkDurationSeconds >= 1`. -/
theorem plan_invariant (d s m : ℚ) (p : ChunkPlan) (hd : 0 < d) (hm : 0 ≤ m)
    (h : plan d s m = .ok (some p)) :
    p.chunkCount = ⌈p.totalDurationSeconds / ((p.chunkDurationSeconds : ℤ) : ℚ)⌉ ∧
      1 ≤ p.chunkDurationSeconds := by
  obtain ⟨h1, h2, h3, h4, rfl⟩ := plan_ok_some h
  refine ⟨rfl, ?_⟩
  have hs : (0:ℚ) ≤ s := le_trans hm (not_lt.mp h1)
  have hsd : 0 < s / d := lt_of_le_of_ne (div_nonneg hs hd.le) (Ne.symm h3)
  have hq : (0:ℚ) ≤ m / (s / d) := div_nonneg hm hsd.le
  have hfl : 0 ≤ ⌊m / (s / d)⌋ := Int.floor_nonneg.mpr hq
  simp only
  omega

/-- Witness for C4 on the 50 MB / 600 s / 24 MB plan. -/
theorem plan_invariant_witness :
    (3:ℤ) = ⌈(600:ℚ) / ((288:ℤ) : ℚ)⌉ ∧ (1:ℤ) ≤ 288 :=
  plan_invariant 600 50 24
    { totalDurationSeconds := 600, chunkDurationSeconds := 288, chunkCount := 3 }
    (by norm_num) (by norm_num) plan_600_50_24

/-- C10: any produced plan with `chunkDurationSeconds >= 1` covers the whole
asset: `chunkCount * chunkDurationSeconds >= totalDurationSeconds`, and every
time point `t` of `[0, totalDurationSeconds)` lies in exactly the window
`[i * chunkDurationSeconds, (i+1) * chunkDurationSeconds)` of some chunk
index `i` of `[0, chunkCount)`. -/
theorem chunk_coverage (d s m : ℚ) (p : ChunkPlan)
    (h : plan d s m = .ok (some p)) (hcd : 1 ≤ p.chunkDurationSeconds) :
    d ≤ ((p.chunkCount * p.chunkDurationSeconds : ℤ) : ℚ) ∧
      ∀ t : ℚ, 0 ≤ t → t < d →
        ∃ i : ℤ, 0 ≤ i ∧ i < p.chunkCount ∧
          ((i * p.chunkDurationSeconds : ℤ) : ℚ) ≤ t ∧
          t < (((i + 1) * p.chunkDurationSeconds : ℤ) : ℚ) := by
  obtain ⟨h1, h2, h3, h4, rfl⟩ := plan_ok_some h
  simp only at hcd ⊢
  have hcdQ : (0:ℚ) < ((⌊m / (s / d)⌋ : ℤ) : ℚ) := by
    exact_mod_cast lt_of_lt_of_le Int.zero_lt_one hcd
  have hceil : d / ((⌊m / (s / d)⌋ : ℤ) : ℚ) ≤
      ((⌈d / ((⌊m / (s / d)⌋ : ℤ) : ℚ)⌉ : ℤ) : ℚ) := Int.le_ceil _
  have hcover : d ≤ ((⌈d / ((⌊m / (s / d)⌋ : ℤ) : ℚ)⌉ : ℤ) : ℚ) *
      ((⌊m / (s / d)⌋ : ℤ) : ℚ) := (div_le_iff₀ hcdQ).mp hceil
  constructor
  · push_cast
    exact hcover
  · intro t ht htd
    refine ⟨⌊t / ((⌊m / (s / d)⌋ : ℤ) : ℚ)⌋,
      Int.floor_nonneg.mpr (div_nonneg ht hcdQ.le), ?_, ?_, ?_⟩
    · exact Int.floor_lt.mpr ((div_lt_iff₀ hcdQ).mpr (lt_of_lt_of_le htd hcover))
    · have h7 := Int.floor_le (t / ((⌊m / (s / d)⌋ : ℤ) : ℚ))
      push_cast
      exact (le_div_iff₀ hcdQ).mp h7
    · have h8 := Int.lt_floor_add_one (t / ((⌊m / (s / d)⌋ : ℤ) : ℚ))
      push_cast
      exact (div_lt_iff₀ hcdQ).mp h8

/-- Witness for C10 on the 50 MB / 600 s / 24 MB plan at time point 100 s. -/
theorem chunk_coverage_witness :
    (600:ℚ) ≤ ((3 * 288 : ℤ) : ℚ) ∧
      ∃ i : ℤ, 0 ≤ i ∧ i < 3 ∧ ((i * 288 : ℤ) : ℚ) ≤ 100 ∧
        (100:ℚ) < (((i + 1) * 288 : ℤ) : ℚ) := by
  have h := chunk_coverage 600 50 24
    { totalDurationSeconds := 600, chunkDurationSeconds := 288, chunkCount := 3 }
    plan_600_50_24 (by norm_num)
  exact ⟨h.1, h.2 100 (by norm_num) (by norm_num)⟩

/-- Number of events `merge_transcripts` appends for one fragment: one per
segment when the `segments` key is present, one fallback event when only
`text` is present, none otherwise. -/
def fragmentEventCount (item : TimedTranscriptFragment) : ℕ :=
  match item.result.segments with
  | some segs => segs.length
  | none =>
      match item.result.text with
      | some _ => 1
      | none => 0

/-- The loop body emits exactly `fragmentEventCount` events for a fragment. -/
theorem fragmentEvents_length (item : TimedTranscriptFragment) :
    (fragmentEvents item).length = fragmentEventCount item := by
  unfold fragmentEvents fragmentEventCount
  rcases item.result.segments with _ | segs
  · rcases item.result.text with _ | t <;> rfl
  · simp

/-- C8: `merge_transcripts` never merges or deduplicates events: the output
holds exactly one event per segment of each segmented fragment plus one
event per whole-text fallback fragment, and nothing else. -/
theorem merge_event_count (transcripts : List TimedTranscriptFragment) :
    (merge_transcripts transcripts).events.length =
      (transcripts.map fragmentEventCount).sum := by
  induction transcripts with
  | nil => rfl
  | cons f rest ih =>
      simp only [merge_transcripts, List.flatMap_cons, List.length_append,
        List.map_cons, List.sum_cons, fragmentEvents_length] at *
      omega

/-- C3 counterexample: on a result carrying an empty `segments` array
together with a `text` field, the degenerate conversion path and the merger
on the single zero-offset fragment disagree: `convert_groq_to_youtube_format`
falls through to the whole-text fallback (the empty list is falsy in the
`if ... and groq_result['segments']` test) while `merge_transcripts` takes
the `'segments' in result` branch and emits no event at all. -/
theorem convert_merge_mismatch :
    convert_groq_to_youtube_format { segments := some [], text := some ("hi") } =
      { events := [{ tStartMs := 0, dDurationMs := 5000, segs := ["hi"] }] } ∧
    merge_transcripts
        [{ result := { segments := some [], text := some ("hi") }, startTime := 0 }] =
      { events := [] } ∧
    convert_groq_to_youtube_format { segments := some [], text := some ("hi") } ≠
      merge_transcripts
        [{ result := { segments := some [], text := some ("hi") }, startTime := 0 }] := by
  refine ⟨rfl, rfl, ?_⟩
  intro hcontra
  simpa [convert_groq_to_youtube_format, merge_transcripts, fragmentEvents] using
    congrArg (fun tr => tr.events.length) hcontra

/-- C3 (amended): for every result that does not carry an empty `segments`
array together with a `text` field, the non-chunked conversion equals the
merger on the single fragment at offset 0. -/
theorem convert_eq_merge_single (r : GroqResult)
    (h : r.segments ≠ some [] ∨ r.text = none) :
    convert_groq_to_youtube_format r =
      merge_transcripts [{ result := r, startTime := 0 }] := by
  obtain ⟨segs, text⟩ := r
  unfold convert_groq_to_youtube_format merge_transcripts fragmentEvents
  rcases segs with _ | l
  · rcases text with _ | t
    · rfl
    · simp [pyInt]
  · rcases l with _ | ⟨a, as⟩
    · have htext : text = none := by
        rcases h with h | h
        · simp at h
        · exact h
      subst htext
      rfl
    · simp [pyInt]

/-- Witness for C3 on a one-segment result. -/
theorem convert_eq_merge_single_witness :
    convert_groq_to_youtube_format
        { segments := some [{ start := 0, «end» := 5, text := "hi" }], text := none } =
      merge_transcripts
        [{ result := { segments := some [{ start := 0, «end» := 5, text := "hi" }],
                       text := none },
           startTime := 0 }] :=
  convert_eq_merge_single
    { segments := some [{ start := 0, «end» := 5, text := "hi" }], text := none }
    (Or.inr rfl)

/-- C2 counterexample: the merger truncates milliseconds (Python `int()`),
it does not round to nearest.  On the segment `{start: 0.0007, end: 0.0014}`
at offset 0 the code emits `tStartMs = 0` and `dDurationMs = 0`, while the
claimed `round(...)` formulas give 1 and 1. -/
theorem merge_not_rounding :
    (merge_transcripts
        [{ result := { segments := some [{ start := 7/10000, «end» := 14/10000,
                                           text := "hi" }],
                       text := none },
           startTime := 0 }]).events =
      [{ tStartMs := 0, dDurationMs := 0, segs := ["hi"] }] ∧
    round (((7:ℚ)/10000 + 0) * 1000) = 1 ∧
    round (((14:ℚ)/10000 - 7/10000) * 1000) = 1 := by
  refine ⟨?_, ?_, ?_⟩
  · norm_num [merge_transcripts, fragmentEvents, pyInt]
  · rw [round_eq]
    norm_num
  · rw [round_eq]
    norm_num

/-- C2 (amended): for every fragment of the merge input that carries
segments, the merger emits (for each segment, in order) one event with
`tStartMs = trunc((start + startTime) * 1000)` and
`dDurationMs = trunc((end - start) * 1000)` — truncation toward zero, not
rounding — preserving the segment's text; in particular the single fragment
at offset 0 with the one segment `{start: 0, end: 5, text: "hi"}` yields
exactly the one event `{tStartMs: 0, dDurationMs: 5000, segs: ["hi"]}`. -/
theorem merge_segment_events :
    (∀ (fs : List TimedTranscriptFragment) (item : TimedTranscriptFragment)
        (l : List Segment) (s : Segment),
        item ∈ fs → item.result.segments = some l → s ∈ l →
        ({ tStartMs := pyInt ((s.start + item.startTime) * 1000)
           dDurationMs := pyInt ((s.«end» - s.start) * 1000)
           segs := [s.text] } : CaptionEvent) ∈ (merge_transcripts fs).events) ∧
    merge_transcripts
        [{ result := { segments := some [{ start := 0, «end» := 5, text := "hi" }],
                       text := none },
           startTime := 0 }] =
      { events := [{ tStartMs := 0, dDurationMs := 5000, segs := ["hi"] }] } := by
  constructor
  · intro fs item l s hitem hsegs hs
    simp only [merge_transcripts, List.mem_flatMap]
    refine ⟨item, hitem, ?_⟩
    simp only [fragmentEvents, hsegs, List.mem_map]
    exact ⟨s, hs, rfl⟩
  · norm_num [merge_transcripts, fragmentEvents, pyInt]

/-- Witness for C2: the segment `{start: 1, end: 2, text: "a"}` of a
fragment at offset 3 contributes the event `{4000, 1000, ["a"]}`. -/
theorem merge_segment_events_witness :
    ({ tStartMs := 4000, dDurationMs := 1000, segs := ["a"] } : CaptionEvent) ∈
      (merge_transcripts
        [{ result := { segments := some [{ start := 1, «end» := 2, text := "a" }],
                       text := none },
           startTime := 3 }]).events := by
  have h := merge_segment_events.1
    [{ result := { segments := some [{ start := 1, «end» := 2, text := "a" }],
                   text := none },
       startTime := 3 }]
    { result := { segments := some [{ start := 1, «end» := 2, text := "a" }],
                  text := none },
      startTime := 3 }
    [{ start := 1, «end» := 2, text := "a" }]
    { start := 1, «end» := 2, text := "a" }
    (List.mem_singleton.mpr rfl) rfl (List.mem_singleton.mpr rfl)
  have e : ({ tStartMs := pyInt (((1:ℚ) + 3) * 1000)
              dDurationMs := pyInt (((2:ℚ) - 1) * 1000)
              segs := ["a"] } : CaptionEvent) =
      { tStartMs := 4000, dDurationMs := 1000, segs := ["a"] } := by
    norm_num [pyInt]
  rw [e] at h
  exact h

/-- C6 counterexample: the fallback event's `tStartMs` is also truncated,
not rounded: a whole-text fragment at offset 0.0007 is emitted at
`tStartMs = 0`, while the claimed `round(startTime * 1000)` gives 1. -/
theorem merge_fallback_not_rounding :
    merge_transcripts
        [{ result := { segments := none, text := some ("y") },
           startTime := 7/10000 }] =
      { events := [{ tStartMs := 0, dDurationMs := 5000, segs := ["y"] }] } ∧
    round ((7:ℚ)/10000 * 1000) = 1 := by
  constructor
  · norm_num [merge_transcripts, fragmentEvents, pyInt]
  · rw [round_eq]
    norm_num

/-- C6 (amended): for every fragment of the merge input without segments but
with whole text, the merger emits exactly one event with
`tStartMs = trunc(startTime * 1000)` (truncation toward zero, not rounding),
the fragment's text, and the fixed placeholder `dDurationMs = 5000`; in
particular a whole-text fragment at offset 120.0 yields exactly the one
event `{tStartMs: 120000, dDurationMs: 5000}`. -/
theorem merge_fallback_event :
    (∀ (fs : List TimedTranscriptFragment) (item : TimedTranscriptFragment)
        (t : String),
        item ∈ fs → item.result.segments = none → item.result.text = some t →
        ({ tStartMs := pyInt (item.startTime * 1000)
           dDurationMs := 5000
           segs := [t] } : CaptionEvent) ∈ (merge_transcripts fs).events) ∧
    merge_transcripts
        [{ result := { segments := none, text := some ("x") }, startTime := 120 }] =
      { events := [{ tStartMs := 120000, dDurationMs := 5000, segs := ["x"] }] } := by
  constructor
  · intro fs item t hitem hsegs htext
    simp only [merge_transcripts, List.mem_flatMap]
    refine ⟨item, hitem, ?_⟩
    simp [fragmentEvents, hsegs, htext]
  · norm_num [merge_transcripts, fragmentEvents, pyInt]

/-- Witness for C6: a whole-text fragment at offset 2.5 contributes the
event `{2500, 5000, ["y"]}`. -/
theorem merge_fallback_event_witness :
    ({ tStartMs := 2500, dDurationMs := 5000, segs := ["y"] } : CaptionEvent) ∈
      (merge_transcripts
        [{ result := { segments := none, text := some ("y") },
           startTime := 5/2 }]).events := by
  have h := merge_fallback_event.1
    [{ result := { segments := none, text := some ("y") }, startTime := 5/2 }]
    { result := { segments := none, text := some ("y") }, startTime := 5/2 }
    "y" (List.mem_singleton.mpr rfl) rfl rfl
  have e : ({ tStartMs := pyInt ((5:ℚ)/2 * 1000)
              dDurationMs := 5000
              segs := ["y"] } : CaptionEvent) =
      { tStartMs := 2500, dDurationMs := 5000, segs := ["y"] } := by
    norm_num [pyInt]
  rw [e] at h
  exact h

/-- The segment list of a fragment (empty when the `segments` key is absent). -/
def segsOf (item : TimedTranscriptFragment) : List Segment :=
  item.result.segments.getD []

/-- The fragment sequence has non-decreasing `startTime` offsets. -/
def offsetsMonotone (fs : List TimedTranscriptFragment) : Prop :=
  List.Chain' (fun a b => a.startTime ≤ b.startTime) fs

/-- Each fragment's own segments are internally time-ordered. -/
def segmentsSorted (fs : List TimedTranscriptFragment) : Prop :=
  ∀ item ∈ fs, List.Chain' (fun s t => s.start ≤ t.start) (segsOf item)

/-- Every segment start time is non-negative. -/
def segmentStartsNonneg (fs : List TimedTranscriptFragment) : Prop :=
  ∀ item ∈ fs, ∀ s ∈ segsOf item, 0 ≤ s.start

/-- Each fragment's absolute segment starts (offset + segment start) stay at
or below the next fragment's offset — the position a chunked pipeline
guarantees because segments live inside their chunk's window. -/
def segmentsWithinChunk (fs : List TimedTranscriptFragment) : Prop :=
  List.Chain' (fun a b => ∀ s ∈ segsOf a, a.startTime + s.start ≤ b.startTime) fs

/-- The absolute start times (in milliseconds, before `int()` conversion)
of the events `merge_transcripts` emits for one fragment. -/
def fragAbsTimes (item : TimedTranscriptFragment) : List ℚ :=
  match item.result.segments with
  | some segs => segs.map (fun s => (s.start + item.startTime) * 1000)
  | none =>
      match item.result.text with
      | some _ => [item.startTime * 1000]
      | none => []

/-- Python `int()` truncation is monotone. -/
theorem pyInt_mono {a b : ℚ} (h : a ≤ b) : pyInt a ≤ pyInt b := by
  rcases le_or_lt 0 a with ha | ha
  · rw [pyInt, if_pos ha, pyInt, if_pos (le_trans ha h)]
    exact Int.floor_mono h
  · rw [pyInt, if_neg (not_le.mpr ha)]
    rcases le_or_lt 0 b with hb | hb
    · rw [pyInt, if_pos hb]
      calc ⌈a⌉ ≤ 0 := Int.ceil_le.mpr (by exact_mod_cast ha.le)
        _ ≤ ⌊b⌋ := Int.floor_nonneg.mpr hb
    · rw [pyInt, if_neg (not_le.mpr hb)]
      exact Int.ceil_mono h

/-- A non-decreasing list of rationals stays non-decreasing under `pyInt`. -/
theorem chain'_map_pyInt {qs : List ℚ} (h : List.Chain' (· ≤ ·) qs) :
    List.Chain' (· ≤ ·) (qs.map pyInt) :=
  (List.chain'_map pyInt).mpr (h.imp (fun _ _ hab => pyInt_mono hab))

/-- The start times of the events of one fragment, as emitted by the loop
body, are the `pyInt` images of its absolute times. -/
theorem fragmentEvents_map_tStartMs (item : TimedTranscriptFragment) :
    (fragmentEvents item).map CaptionEvent.tStartMs = (fragAbsTimes item).map pyInt := by
  obtain ⟨⟨segs, text⟩, off⟩ := item
  rcases segs with _ | l
  · rcases text with _ | t <;> rfl
  · simp [fragmentEvents, fragAbsTimes]

/-- The start times of the merged timeline are the `pyInt` images of the
concatenated absolute times. -/
theorem merge_map_tStartMs (fs : List TimedTranscriptFragment) :
    (merge_transcripts fs).events.map CaptionEvent.tStartMs =
      (fs.flatMap fragAbsTimes).map pyInt := by
  induction fs with
  | nil => rfl
  | cons f rest ih =>
      simp only [merge_transcripts, List.flatMap_cons, List.map_append,
        fragmentEvents_map_tStartMs] at *
      rw [ih]

/-- Every absolute time of a fragment with non-negative segment starts is at
least the fragment's own offset (in ms). -/
theorem fragAbsTimes_lower (item : TimedTranscriptFragment)
    (h : ∀ s ∈ segsOf item, 0 ≤ s.start) :
    ∀ q ∈ fragAbsTimes item, item.startTime * 1000 ≤ q := by
  obtain ⟨⟨segs, text⟩, off⟩ := item
  rcases segs with _ | l
  · rcases text with _ | t
    · intro q hq
      simp [fragAbsTimes] at hq
    · intro q hq
      simp [fragAbsTimes] at hq
      subst hq
      exact le_refl _
  · intro q hq
    simp only [fragAbsTimes, List.mem_map] at hq
    obtain ⟨s, hs, rfl⟩ := hq
    have h0 : 0 ≤ s.start := h s (by simpa [segsOf] using hs)
    simp only
    nlinarith

/-- Every absolute time of a fragment whose absolute segment starts are
bounded by `b` (and whose offset is bounded by `b`) is at most `b` ms. -/
theorem fragAbsTimes_upper (item : TimedTranscriptFragment) (b : ℚ)
    (hseg : ∀ s ∈ segsOf item, item.startTime + s.start ≤ b)
    (hoff : item.startTime ≤ b) :
    ∀ q ∈ fragAbsTimes item, q ≤ b * 1000 := by
  obtain ⟨⟨segs, text⟩, off⟩ := item
  rcases segs with _ | l
  · rcases text with _ | t
    · intro q hq
      simp [fragAbsTimes] at hq
    · intro q hq
      simp [fragAbsTimes] at hq
      subst hq
      simp only at hoff
      nlinarith
  · intro q hq
    simp only [fragAbsTimes, List.mem_map] at hq
    obtain ⟨s, hs, rfl⟩ := hq
    have hb : off + s.start ≤ b := hseg s (by simpa [segsOf] using hs)
    simp only at hb ⊢
    nlinarith

/-- A fragment with internally ordered segments emits non-decreasing
absolute times. -/
theorem fragAbsTimes_chain (item : TimedTranscriptFragment)
    (h : List.Chain' (fun s t => s.start ≤ t.start) (segsOf item)) :
    List.Chain' (· ≤ ·) (fragAbsTimes item) := by
  obtain ⟨⟨segs, text⟩, off⟩ := item
  rcases segs with _ | l
  · rcases text with _ | t
    · simp [fragAbsTimes]
    · simp [fragAbsTimes]
  · simp only [segsOf, Option.getD_some] at h
    refine (List.chain'_map _).mpr (h.imp ?_)
    intro s t hst
    simp only
    nlinarith

/-- Helper: a member of `getLast?` is a member of the list. -/
theorem mem_of_getLast? {α : Type} {l : List α} {x : α} (h : x ∈ l.getLast?) :
    x ∈ l := by
  obtain ⟨hne, rfl⟩ := List.mem_getLast?_eq_getLast h
  exact List.getLast_mem hne

/-- Every absolute time in the tail of a well-formed sequence is at least the
head fragment's offset (in ms). -/
theorem absTimes_lower (fs : List TimedTranscriptFragment) :
    ∀ f : TimedTranscriptFragment, offsetsMonotone fs → segmentStartsNonneg fs →
      fs.head? = some f →
      ∀ q ∈ fs.flatMap fragAbsTimes, f.startTime * 1000 ≤ q := by
  induction fs with
  | nil =>
      intro f _ _ hhead
      simp at hhead
  | cons g rest ih =>
      intro f hmono hnneg hhead q hq
      obtain rfl : g = f := by simpa using hhead
      rw [List.flatMap_cons, List.mem_append] at hq
      rcases hq with hq | hq
      · exact fragAbsTimes_lower g (hnneg g (List.mem_cons_self _ _)) q hq
      · rcases rest with _ | ⟨g2, rest2⟩
        · simp at hq
        · have hle : g.startTime ≤ g2.startTime := (List.chain'_cons.mp hmono).1
          have htail : g.startTime * 1000 ≤ g2.startTime * 1000 := by nlinarith
          have ih2 := ih g2 (List.chain'_cons.mp hmono).2
            (fun item hit s hs => hnneg item (List.mem_cons_of_mem _ hit) s hs)
            rfl q hq
          linarith

/-- The concatenated absolute times of a well-formed fragment sequence are
non-decreasing. -/
theorem absTimes_chain (fs : List TimedTranscriptFragment)
    (h1 : offsetsMonotone fs) (h2 : segmentsSorted fs)
    (h3 : segmentStartsNonneg fs) (h4 : segmentsWithinChunk fs) :
    List.Chain' (· ≤ ·) (fs.flatMap fragAbsTimes) := by
  induction fs with
  | nil => simp
  | cons f rest ih =>
      rw [List.flatMap_cons, List.chain'_append]
      refine ⟨fragAbsTimes_chain f (h2 f (List.mem_cons_self _ _)), ?_, ?_⟩
      · exact ih h1.tail (fun item hit => h2 item (List.mem_cons_of_mem _ hit))
          (fun item hit s hs => h3 item (List.mem_cons_of_mem _ hit) s hs) h4.tail
      · intro x hx y hy
        have hy' : y ∈ rest.flatMap fragAbsTimes := List.mem_of_mem_head? hy
        rcases rest with _ | ⟨g, rest2⟩
        · simp at hy'
        · have hxmem : x ∈ fragAbsTimes f := mem_of_getLast? hx
          have hxle : x ≤ g.startTime * 1000 :=
            fragAbsTimes_upper f g.startTime (List.chain'_cons.mp h4).1
              (List.chain'_cons.mp h1).1 x hxmem
          have hylow : g.startTime * 1000 ≤ y :=
            absTimes_lower (g :: rest2) g (List.chain'_cons.mp h1).2
              (fun item hit s hs => h3 item (List.mem_cons_of_mem _ hit) s hs)
              rfl y hy'
          linarith

/-- The two-fragment input refuting C7 as stated: offsets are non-decreasing
(0, then 10) and each fragment's single segment is trivially ordered, but
the first fragment's segment starts at 100 s, far past the second
fragment's offset. -/
def staggeredFragments : List TimedTranscriptFragment :=
  [{ result := { segments := some [{ start := 100, «end» := 101, text := "a" }],
                 text := none },
     startTime := 0 },
   { result := { segments := some [{ start := 0, «end» := 1, text := "b" }],
                 text := none },
     startTime := 10 }]

/-- C7 counterexample: non-decreasing fragment offsets plus internally
ordered segments do NOT suffice for a sorted timeline: on
`staggeredFragments` the merger emits start times 100000 then 10000. -/
theorem merge_order_counterexample :
    offsetsMonotone staggeredFragments ∧ segmentsSorted staggeredFragments ∧
    ¬ List.Chain' (· ≤ ·)
        ((merge_transcripts staggeredFragments).events.map CaptionEvent.tStartMs) := by
  refine ⟨?_, ?_, ?_⟩
  · simp only [offsetsMonotone, staggeredFragments, List.chain'_cons,
      List.chain'_singleton, and_true]
    norm_num
  · intro item h
    simp only [staggeredFragments, List.mem_cons, List.mem_singleton,
      List.not_mem_nil, or_false] at h
    rcases h with rfl | rfl <;> simp [segsOf]
  · intro hchain
    have hev : (merge_transcripts staggeredFragments).events.map CaptionEvent.tStartMs =
        [100000, 10000] := by
      norm_num [merge_transcripts, staggeredFragments, fragmentEvents, pyInt]
    rw [hev] at hchain
    simp only [List.chain'_cons, List.chain'_singleton, and_true] at hchain
    norm_num at hchain

/-- C7 (amended): the merged timeline's events are in non-decreasing
`tStartMs` order whenever the fragments' offsets are non-decreasing, each
fragment's segments are internally time-ordered with non-negative start
times, and each fragment's absolute segment starts (offset + segment start)
do not exceed the next fragment's offset — the extra bound the
counterexample shows to be necessary and which holds for chunked pipelines
whose segments lie inside their chunk's window. -/
theorem merge_ordered (fs : List TimedTranscriptFragment)
    (h1 : offsetsMonotone fs) (h2 : segmentsSorted fs)
    (h3 : segmentStartsNonneg fs) (h4 : segmentsWithinChunk fs) :
    List.Chain' (· ≤ ·)
      ((merge_transcripts fs).events.map CaptionEvent.tStartMs) := by
  rw [merge_map_tStartMs]
  exact chain'_map_pyInt (absTimes_chain fs h1 h2 h3 h4)

/-- Witness input for the amended C7: two fragments at offsets 0 and 5, the
first with two segments inside `[0, 5)`, the second with one segment. -/
def orderedFragments : List TimedTranscriptFragment :=
  [{ result := { segments := some [{ start := 0, «end» := 1, text := "a" },
                                   { start := 2, «end» := 3, text := "b" }],
                 text := none },
     startTime := 0 },
   { result := { segments := some [{ start := 0, «end» := 1, text := "c" }],
                 text := none },
     startTime := 5 }]

/-- Witness for the amended C7 on `orderedFragments`. -/
theorem merge_ordered_witness :
    List.Chain' (· ≤ ·)
      ((merge_transcripts orderedFragments).events.map CaptionEvent.tStartMs) := by
  apply merge_ordered
  · simp only [offsetsMonotone, orderedFragments, List.chain'_cons,
      List.chain'_singleton, and_true]
    norm_num
  · intro item h
    simp only [orderedFragments, List.mem_cons, List.mem_singleton,
      List.not_mem_nil, or_false] at h
    rcases h with rfl | rfl <;> simp [segsOf]
  · intro item h s hs
    simp only [orderedFragments, List.mem_cons, List.mem_singleton,
      List.not_mem_nil, or_false] at h
    rcases h with rfl | rfl
    · simp only [segsOf, Option.getD_some, List.mem_cons, List.mem_singleton,
        List.not_mem_nil, or_false] at hs
      rcases hs with rfl | rfl <;> norm_num
    · simp only [segsOf, Option.getD_some, List.mem_cons, List.mem_singleton,
        List.not_mem_nil, or_false] at hs
      subst hs
      norm_num
  · simp only [segmentsWithinChunk, orderedFragments, List.chain'_cons,
      List.chain'_singleton, and_true]
    intro s hs
    simp only [segsOf, Option.getD_some, List.mem_cons, List.mem_singleton,
      List.not_mem_nil, or_false] at hs
    rcases hs with rfl | rfl <;> norm_num
